import Mathlib

/-!
# steam2-extract: the command-line driver `src/main.cpp`

A shallow embedding of the functions of `main.cpp` (`split`, `sanitize_path`,
`cc_extract`, `cc_ls`, `cc_validate`, `cc_iton`, `cc_lsblk`, `main`) followed by the
properties established about them.

Conventions of the embedding.

* A C++ call that can throw is a value of `Except Thrown α`; the three constructors of
  `Thrown` are the three classes the `catch` clauses of `main.cpp` tell apart.
* Standard output, standard error, the directories created and the tasks handed to the
  thread pool are recorded in a `Run`.  Wall-clock measurements are left out.
* `int` and `uint32_t` values are integers reduced explicitly (`wrapInt32`, `toU32`).
* What `steam2.hpp`, `argparse.hpp`, `<regex>` and `<filesystem>` provide is not part of
  `main.cpp`; it enters through the records `Lib` and `PathOps`.
* The network commands sit behind `#ifdef STEAM2_BUILD_NET` and are registered in `main`
  only in such a build; the embedding is that of the default build.
-/

set_option autoImplicit false

namespace Steam2

/-! ## Definitions -/

/-! ### Exceptions and machine integers -/

/-- What a C++ call can throw, as far as the handlers of `main.cpp` distinguish it. -/
inductive Thrown where
  /-- Class `std::regex_error` (derived from `std::exception`). -/
  | regex_error (what : String)
  /-- Any other class derived from `std::exception`. -/
  | std_exception (what : String)
  /-- An object whose class is not derived from `std::exception`. -/
  | other
deriving DecidableEq, Repr

/-- The value of a 32-bit `int` holding the integer `i` after two's-complement wrap-around. -/
def wrapInt32 (i : Int) : Int := (i + 2147483648) % 4294967296 - 2147483648

/-- Conversion of an integer to `uint32_t`. -/
def toU32 (i : Int) : Nat := (i % 4294967296).toNat

/-! ### `split` (lines 17-32) -/

/-- The loop of `split`, with the final `if (left != str.end())`.
`cur` is the range `[left, it)` and `result` the vector built so far. -/
def split_go (delim : Char) : List Char → List Char → List (List Char) → List (List Char)
  | [], cur, result => if cur ≠ [] then result ++ [cur] else result
  | c :: rest, cur, result =>
    if c = delim then split_go delim rest [] (result ++ [cur])
    else split_go delim rest (cur ++ [c]) result

/-- Function `split(str, delim)`; a `string_view` is its sequence of characters. -/
def split (str : List Char) (delim : Char) : List (List Char) :=
  split_go delim str [] []

/-! ### `sanitize_path` (lines 63-67) -/

/-- The erase-remove idiom `s.erase(std::remove(s.begin(), s.end(), value), s.end())`:
the elements different from `value` are moved to the front in their order and the tail
is erased. -/
def erase_remove (value : Char) : List Char → List Char
  | [] => []
  | c :: rest => if c = value then erase_remove value rest else c :: erase_remove value rest

/-- Function `sanitize_path`; a `std::filesystem::path` is the string it holds. -/
def sanitize_path (original : String) : String :=
  String.mk (erase_remove ':' original.data)

/-! ### Data read from a depot (declared in `steam2.hpp`) -/

/-- One row of the directory-entry table of a Manifest. -/
structure DirEntry where
  name_offset : Nat
  item_size : Nat
  fileid : Nat
  dirtype : Nat
  parent : Nat
  next_sibling : Nat
  first_child : Nat
deriving DecidableEq, Repr

/-- The header fields of a Manifest that `main.cpp` reads. -/
structure ManifestHeader where
  cacheid : Nat
  gcfversion : Nat
deriving DecidableEq, Repr

/-- A parsed Manifest: header, directory-entry table and filename heap. -/
structure Manifest where
  m_header : ManifestHeader
  m_direntries : List DirEntry
  m_names : List Char
deriving DecidableEq, Repr

/-- One row of `Checksum::m_map`. -/
structure ChecksumMapEntry where
  firstidx : Nat
  count : Nat
deriving DecidableEq, Repr

/-- One row of `Checksum::m_entries`. -/
structure ChecksumEntry where
  sum : Nat
deriving DecidableEq, Repr

/-- A parsed Checksum file. -/
structure Checksum where
  m_map : List ChecksumMapEntry
  m_entries : List ChecksumEntry
deriving DecidableEq, Repr

/-- The two dialects `Index::version::v2` and `Index::version::v3`. -/
inductive IndexVersion where
  | v2
  | v3
deriving DecidableEq, Repr

/-- A parsed Index, as far as `cc_lsblk` looks into it: the pairs of `m_indexes`,
each a file id with the `m_type` of its layout. -/
structure Index where
  m_indexes : List (Nat × Nat)
deriving DecidableEq, Repr

/-- An opened Storage: the arguments its constructor received. -/
structure Storage where
  path : String
  key : String
deriving DecidableEq, Repr

/-- What `main.cpp` calls but does not define: the classes of `steam2.hpp`, the global
`g_keystore`, `std::regex`, `std::filesystem::create_directories` and the usage text of
the argument parser. -/
structure Lib where
  /-- Constructor `Manifest(path)`. -/
  Manifest_ctor : String → Except Thrown Manifest
  /-- Method `Manifest::full_path_for_entry`, giving the string of the returned path. -/
  full_path_for_entry : Manifest → DirEntry → Except Thrown String
  /-- Constructor `Index(path, version)`; `none` when the version argument is omitted. -/
  Index_ctor : String → Option IndexVersion → Except Thrown Index
  /-- Constructor `Storage(path, key)`. -/
  Storage_ctor : String → String → Except Thrown Storage
  /-- Constructor `Checksum(path)`. -/
  Checksum_ctor : String → Except Thrown Checksum
  /-- Method `g_keystore.has_key`. -/
  has_key : Nat → Bool
  /-- Method `g_keystore.get`. -/
  get : Nat → Except Thrown String
  /-- The bytes `Storage::extract_file(fb, index, fileid)` leaves in the string stream
  `fb`. -/
  extract_file : Storage → Index → Int → List Nat
  /-- Call `Checksum::hashblock(data + offset, length)` on the buffer starting at
  `data`. -/
  hashblock : List Nat → Int → Nat → Nat
  /-- Function `Index::filetype_to_string`. -/
  filetype_to_string : Nat → String
  /-- Construction of a `std::regex` from its source: it throws `std::regex_error` or
  yields the predicate `std::regex_match(·, re)`. -/
  regex : String → Except Thrown (String → Bool)
  /-- The call `std::filesystem::create_directories(path)` (the overload that throws) on
  the file system of the run: normal return, or the exception thrown. -/
  create_directories : String → Except Thrown Unit
  /-- The text `std::cout << program` prints. -/
  usage : String

/-- The operations of `std::filesystem::path` used by `main.cpp`, on the string a path
holds; they depend on the platform. -/
structure PathOps where
  /-- Method `make_preferred`. -/
  make_preferred : String → String
  /-- The operator `/` of two paths. -/
  append : String → String → String
  /-- Method `remove_filename`. -/
  remove_filename : String → String
  /-- The text `std::cout << path` prints (the path quoted). -/
  quoted : String → String

/-! ### The argument parser (`argparse.hpp`) -/

/-- A subparser after `parse_args`: its name, the `default_value`s registered by `main`,
the values given on the command line and the flags given. -/
structure ArgumentParser where
  name : String
  defaults : List (String × String)
  values : List (String × String)
  flags : List String
deriving DecidableEq, Repr

/-- Method `args.get(name)`: the value given, else the registered default, else
`std::logic_error`. -/
def ArgumentParser.get (args : ArgumentParser) (n : String) : Except Thrown String :=
  match args.values.lookup n with
  | some v => .ok v
  | none =>
    match args.defaults.lookup n with
    | some v => .ok v
    | none => .error (.std_exception ("No value provided for " ++ n))

/-- The test `args[name] == true` of a `.flag()` argument. -/
def ArgumentParser.flag (args : ArgumentParser) (n : String) : Bool :=
  args.flags.contains n

/-- The predicate `isspace` of the C locale. -/
def isspace (c : Char) : Bool :=
  c = ' ' || (9 ≤ c.toNat && c.toNat ≤ 13)

/-- Function `std::stoi(str)`: leading white space, an optional sign, decimal digits;
`std::invalid_argument` when there is no digit, `std::out_of_range` when the value does
not fit an `int`. -/
def stoi (str : String) : Except Thrown Int :=
  let s := str.data.dropWhile isspace
  let negative := s.head? = some '-'
  let body := if s.head? = some '-' ∨ s.head? = some '+' then s.tail else s
  let digits := body.takeWhile Char.isDigit
  if digits = [] then .error (.std_exception "stoi")
  else
    let magnitude : Nat := digits.foldl (fun a c => 10 * a + (c.toNat - 48)) 0
    let value : Int := if negative then - (magnitude : Int) else (magnitude : Int)
    if value < -2147483648 ∨ 2147483647 < value then .error (.std_exception "stoi")
    else .ok value

/-! ### What a command does -/

/-- A task `cc_extract` hands to the thread pool: it opens `final` for writing and calls
`storage.extract_file(out, index, entry.fileid)`. -/
structure ExtractTask where
  final : String
  entry : DirEntry
deriving DecidableEq, Repr

/-- The state of one pass through the body of the loop at lines 185-196. -/
structure Iteration where
  /-- The counter `k`, an `int`. -/
  k : Int
  /-- The index `first + k`, a `uint32_t`. -/
  index : Nat
  /-- The product `k * 0x8000`, an `int`, added to `fb.str().data()`. -/
  offset : Int
  /-- The length `to_read` passed to `hashblock`. -/
  to_read : Nat
  /-- The counter `left` after `left -= to_read`. -/
  left : Nat
deriving DecidableEq, Repr

/-- What a task detached by `cc_validate` does when it runs to its end. -/
structure ValidatorRun where
  /-- The value of `j` the task captured, passed to `extract_file` as the file id. -/
  j : Int
  /-- The passes of its loop, one call of `hashblock` in each. -/
  passes : List Iteration
  /-- The lines it prints, in order. -/
  lines : List String
deriving DecidableEq, Repr

/-- The observable effects of a command and how it ended. -/
structure Run where
  /-- Lines written to standard output by the calling thread. -/
  stdout : List String
  /-- Lines written to standard error. -/
  stderr : List String
  /-- The key passed to the constructor of `Storage`, once that call is reached. -/
  storage_key : Option String
  /-- The arguments of the calls of `std::filesystem::create_directories` that returned,
  in order. -/
  created_directories : List String
  /-- The tasks `cc_extract` detached, in order of submission. -/
  extract_tasks : List ExtractTask
  /-- What each task detached by `cc_validate` does, in order of submission; `none` when
  the task reads `m_entries` out of range. -/
  validate_tasks : List (Option ValidatorRun)
  /-- Normal return, or the exception that leaves the command. -/
  result : Except Thrown Unit

/-- The run without any effect that returns normally. -/
def Run.done : Run :=
  { stdout := [], stderr := [], storage_key := none, created_directories := [],
    extract_tasks := [], validate_tasks := [], result := .ok () }

/-- The run without any effect that ends with the exception `t`. -/
def Run.throw (t : Thrown) : Run :=
  { Run.done with result := .error t }

/-! ### `cc_extract` (lines 69-133) -/

/-- The initialiser of `key` at line 81. -/
def extract_key (lib : Lib) (args : ArgumentParser) (cacheid : Nat) : Except Thrown String :=
  if lib.has_key cacheid then lib.get cacheid else args.get "--key"

/-- The loop over `manifest.m_direntries` (lines 107-126), started from the run `run`.
An exception of `full_path_for_entry` or `create_directories` leaves the loop, no `try`
enclosing them. -/
def extract_loop (lib : Lib) (ops : PathOps) (manifest : Manifest)
    (filter : Option (String → Bool)) (base : String) : List DirEntry → Run → Run
  | [], run => run
  | entry :: rest, run =>
    if entry.dirtype = 0 then extract_loop lib ops manifest filter base rest run
    else
      match lib.full_path_for_entry manifest entry with
      | .error t => { run with result := .error t }
      | .ok path =>
        if (match filter with
            | some re => !re path
            | none => false) then
          extract_loop lib ops manifest filter base rest run
        else
          let final := ops.append (ops.make_preferred base) (ops.make_preferred path)
          let final_dir := ops.remove_filename final
          match lib.create_directories (sanitize_path final_dir) with
          | .error t => { run with result := .error t }
          | .ok _ =>
            extract_loop lib ops manifest filter base rest
              { run with
                created_directories := run.created_directories ++ [sanitize_path final_dir]
                extract_tasks := run.extract_tasks ++ [{ final := final, entry := entry }] }

/-- The second `try` block (lines 97-101): `--out`, or `./<cacheid>_<gcfversion>` on any
exception. -/
def extract_base (ops : PathOps) (args : ArgumentParser) (manifest : Manifest) : String :=
  match args.get "--out" with
  | .ok out => out
  | .error _ =>
    ops.append "." (toString manifest.m_header.cacheid ++ "_" ++
      toString manifest.m_header.gcfversion)

/-- Function `cc_extract`. -/
def cc_extract (lib : Lib) (ops : PathOps) (args : ArgumentParser) : Run :=
  match (args.get "manifest").bind lib.Manifest_ctor with
  | .error t => Run.throw t
  | .ok manifest =>
    let v := if args.flag "--v2" then IndexVersion.v2 else IndexVersion.v3
    match (args.get "index").bind (fun p => lib.Index_ctor p (some v)) with
    | .error t => Run.throw t
    | .ok _ =>
      match extract_key lib args manifest.m_header.cacheid with
      | .error t => Run.throw t
      | .ok key =>
        match args.get "storage" with
        | .error t => Run.throw t
        | .ok path =>
          match lib.Storage_ctor path key with
          | .error t => { Run.throw t with storage_key := some key }
          | .ok _ =>
            let started : Run := { Run.done with storage_key := some key }
            match (args.get "--filter").bind lib.regex with
            | .error (.regex_error what) => { started with stderr := [what] }
            | .error (.std_exception _) =>
              extract_loop lib ops manifest none (extract_base ops args manifest)
                manifest.m_direntries started
            | .error .other => { started with result := .error .other }
            | .ok re =>
              extract_loop lib ops manifest (some re) (extract_base ops args manifest)
                manifest.m_direntries started

/-! ### `cc_ls` (lines 135-148) -/

/-- The loop of `cc_ls` over `manifest.m_direntries`, started from the run `run`. -/
def ls_loop (lib : Lib) (ops : PathOps) (manifest : Manifest) : List DirEntry → Run → Run
  | [], run => run
  | entry :: rest, run =>
    match lib.full_path_for_entry manifest entry with
    | .error t => { run with result := .error t }
    | .ok name =>
      if name = "" then ls_loop lib ops manifest rest run
      else ls_loop lib ops manifest rest
        { run with stdout := run.stdout ++ [ops.make_preferred name] }

/-- The first line `cc_ls` prints. -/
def ls_header (manifest : Manifest) : String :=
  "File list for cache " ++ toString manifest.m_header.cacheid ++ " version " ++
    toString manifest.m_header.gcfversion ++ ":"

/-- Function `cc_ls`. -/
def cc_ls (lib : Lib) (ops : PathOps) (args : ArgumentParser) : Run :=
  match (args.get "manifest").bind lib.Manifest_ctor with
  | .error t => Run.throw t
  | .ok manifest =>
    ls_loop lib ops manifest manifest.m_direntries
      { Run.done with stdout := [ls_header manifest] }

/-! ### `cc_validate` (lines 150-208) -/

/-- The loop `for (int k = 0; k < count; k++)` of a validator task, from the state
`(k, left)`: the passes it makes, or `none` when `fuel` passes do not reach its end.
The comparison `k < count` is made in `uint32_t`. -/
def validate_iterations (first count : Nat) : Nat → Int → Nat → Option (List Iteration)
  | 0, _, _ => none
  | fuel + 1, k, left =>
    if toU32 k < count then
      let to_read := min 32768 left
      (validate_iterations first count fuel (wrapInt32 (k + 1)) (left - to_read)).map
        (fun passes =>
          { k := k, index := (first + toU32 k) % 4294967296,
            offset := wrapInt32 (k * 32768), to_read := to_read,
            left := left - to_read } :: passes)
    else some []

/-- The line of `std::println("Bad checksum for file {}: got {} expected {}", ...)`. -/
def bad_line (j : Int) (sum correct_sum : Nat) : String :=
  "Bad checksum for file " ++ toString j ++ ": got " ++ toString sum ++ " expected " ++
    toString correct_sum

/-- The line of `std::println("File {} part {} OK", j, k)`. -/
def ok_line (j k : Int) : String :=
  "File " ++ toString j ++ " part " ++ toString k ++ " OK"

/-- What the body of the loop prints in the pass `it`: `none` when `m_entries` is read
out of range, `some none` when nothing is printed. -/
def iteration_line (lib : Lib) (c : Checksum) (onlybad : Bool) (j : Int) (buf : List Nat)
    (it : Iteration) : Option (Option String) :=
  match c.m_entries[it.index]? with
  | none => none
  | some e =>
    let correct_sum := e.sum
    let sum := lib.hashblock buf it.offset it.to_read
    if correct_sum ≠ sum then some (some (bad_line j sum correct_sum))
    else if !onlybad then some (some (ok_line j it.k))
    else some none

/-- The lines printed over the passes `passes`, in order. -/
def task_lines (lib : Lib) (c : Checksum) (onlybad : Bool) (j : Int) (buf : List Nat) :
    List Iteration → Option (List String)
  | [] => some []
  | it :: rest =>
    match iteration_line lib c onlybad j buf it with
    | none => none
    | some line => (task_lines lib c onlybad j buf rest).map (fun ls => line.toList ++ ls)

/-- The task detached at line 176 for the map entry `chksum` and the captured `j`:
what it does when it runs. -/
def validator_task (lib : Lib) (s : Storage) (i : Index) (c : Checksum) (onlybad : Bool)
    (j : Int) (chksum : ChecksumMapEntry) : Option ValidatorRun :=
  let first := chksum.firstidx % 4294967296
  let count := chksum.count % 4294967296
  let buf := lib.extract_file s i j
  match validate_iterations first count (count + 1) 0 buf.length with
  | none => none
  | some passes =>
    match task_lines lib c onlybad j buf passes with
    | none => none
    | some lines => some { j := j, passes := passes, lines := lines }

/-- The loop over `c.m_map` (lines 170-200) from the value `j` of the counter: the tasks
it detaches. -/
def validate_submit (lib : Lib) (s : Storage) (i : Index) (c : Checksum) (onlybad : Bool) :
    List ChecksumMapEntry → Int → List (Option ValidatorRun)
  | [], _ => []
  | chksum :: rest, j =>
    if chksum.count = 0 then validate_submit lib s i c onlybad rest (wrapInt32 (j + 1))
    else
      validator_task lib s i c onlybad j chksum ::
        validate_submit lib s i c onlybad rest (wrapInt32 (j + 1))

/-- The initialisation of `key` at lines 151-158. -/
def validate_key (lib : Lib) (args : ArgumentParser) : Except Thrown String :=
  match args.get "--cacheid" with
  | .error t => .error t
  | .ok cacheid =>
    if cacheid ≠ "" then
      match stoi cacheid with
      | .error t => .error t
      | .ok id => lib.get (toU32 id)
    else args.get "--key"

/-- Function `cc_validate`. -/
def cc_validate (lib : Lib) (args : ArgumentParser) : Run :=
  match validate_key lib args with
  | .error t => Run.throw t
  | .ok key =>
    match args.get "storage" with
    | .error t => Run.throw t
    | .ok path =>
      match lib.Storage_ctor path key with
      | .error t => { Run.throw t with storage_key := some key }
      | .ok s =>
        match (args.get "index").bind (fun p => lib.Index_ctor p none) with
        | .error t => { Run.throw t with storage_key := some key }
        | .ok i =>
          match (args.get "checksum").bind lib.Checksum_ctor with
          | .error t => { Run.throw t with storage_key := some key }
          | .ok c =>
            let onlybad := args.flag "--onlybad"
            { Run.done with
              storage_key := some key
              stdout := ["Validating cache " ++ path, "Tasks submitted, waiting!"]
              validate_tasks := validate_submit lib s i c onlybad c.m_map 0 }

/-! ### `cc_iton` and `cc_lsblk` (lines 210-237) -/

/-- The loop of `cc_iton`. -/
def iton_loop (lib : Lib) (ops : PathOps) (m : Manifest) (id : Int) : List DirEntry → Run → Run
  | [], run => run
  | entry :: rest, run =>
    if entry.fileid % 4294967296 = toU32 id then
      match lib.full_path_for_entry m entry with
      | .error t => { run with result := .error t }
      | .ok path => iton_loop lib ops m id rest { run with stdout := run.stdout ++ [ops.quoted path] }
    else iton_loop lib ops m id rest run

/-- Function `cc_iton`; `args.get<int>("id")` is the integer the parser scanned. -/
def cc_iton (lib : Lib) (ops : PathOps) (args : ArgumentParser) : Run :=
  match (args.get "id").bind stoi with
  | .error t => Run.throw t
  | .ok id =>
    match (args.get "manifest").bind lib.Manifest_ctor with
    | .error t => Run.throw t
    | .ok m => iton_loop lib ops m id m.m_direntries Run.done

/-- Function `cc_lsblk`. -/
def cc_lsblk (lib : Lib) (args : ArgumentParser) : Run :=
  let v := if args.flag "--v2" then IndexVersion.v2 else IndexVersion.v3
  match (args.get "index").bind (fun p => lib.Index_ctor p (some v)) with
  | .error t => Run.throw t
  | .ok i =>
    let onlyid := args.flag "--onlyid"
    { Run.done with
      stdout := i.m_indexes.map (fun pairs =>
        if onlyid then toString pairs.1
        else toString pairs.1 ++ " | " ++ lib.filetype_to_string pairs.2) }

/-! ### `main` (lines 371-555) -/

/-- The `default_value` of both `--key` arguments (lines 405 and 442). -/
def default_key : String := "00000000000000000000000000000000"

/-- The subparser `x` as `main` registers it. -/
def extract_command : ArgumentParser :=
  { name := "x", defaults := [("--key", default_key)], values := [], flags := [] }

/-- The subparser `ls` as `main` registers it. -/
def list_command : ArgumentParser :=
  { name := "ls", defaults := [], values := [], flags := [] }

/-- The subparser `v` as `main` registers it. -/
def validate_command : ArgumentParser :=
  { name := "v", defaults := [("--key", default_key), ("--cacheid", "")], values := [],
    flags := [] }

/-- The subparser `iton` as `main` registers it. -/
def iton : ArgumentParser :=
  { name := "iton", defaults := [], values := [], flags := [] }

/-- The subparser `lsblk` as `main` registers it. -/
def lsblk : ArgumentParser :=
  { name := "lsblk", defaults := [], values := [], flags := [] }

/-- The local struct `parse_node` of `main`: a subparser and its callback. -/
structure parse_node where
  p : ArgumentParser
  f : ArgumentParser → Run

/-- The list `parsers` once `main` has registered its subcommands. -/
def parsers (lib : Lib) (ops : PathOps) : List parse_node :=
  [ { p := extract_command, f := cc_extract lib ops },
    { p := list_command, f := cc_ls lib ops },
    { p := validate_command, f := cc_validate lib },
    { p := iton, f := cc_iton lib ops },
    { p := lsblk, f := cc_lsblk lib } ]

/-- What `program.parse_args(argc, argv)` leaves behind when it returns: the subcommand
used, if any, with the values and flags given to it. -/
structure CommandLine where
  subcommand : Option String
  values : List (String × String)
  flags : List String
deriving DecidableEq, Repr

/-- The loop at lines 540-545: the callback of the first subparser that is used runs on
that subparser. -/
def dispatch (cl : CommandLine) : List parse_node → Run
  | [] => Run.done
  | i :: rest =>
    if cl.subcommand = some i.p.name then
      i.f { i.p with values := cl.values, flags := cl.flags }
    else dispatch cl rest

/-- The `try` block of `main` (lines 538-545). -/
def main_try (lib : Lib) (ops : PathOps) (parse_args : Except Thrown CommandLine) : Run :=
  match parse_args with
  | .error t => Run.throw t
  | .ok cl => dispatch cl (parsers lib ops)

/-- Function `main`, given the outcome of `program.parse_args`: what was done and the
exit status returned; no status when an exception that is not a `std::exception`
leaves `main`. -/
def main (lib : Lib) (ops : PathOps) (parse_args : Except Thrown CommandLine) :
    Run × Option Int :=
  let run := main_try lib ops parse_args
  match run.result with
  | .ok _ => (run, some 0)
  | .error (.regex_error what) => ({ run with stdout := run.stdout ++ [what, lib.usage] }, some 1)
  | .error (.std_exception what) =>
    ({ run with stdout := run.stdout ++ [what, lib.usage] }, some 1)
  | .error .other => (run, none)

/-! ### Path resolution of the Manifest -/

/-- Modelled from the spec: the name of a directory entry, which `steam2.hpp` reads from
the filename heap (not in `main.cpp`): the bytes at `name_offset` up to the terminating
NUL. -/
def entry_name (m : Manifest) (e : DirEntry) : String :=
  String.mk ((m.m_names.drop e.name_offset).takeWhile (fun c => c ≠ Char.ofNat 0))

/-- Modelled from the spec: step 1 of `full_path_for_entry` (declared in `steam2.hpp`, not
in `main.cpp`): walk the parent links from `e` up to the root (the entry whose `parent`
is `0xFFFFFFFF`), collecting names; `CYCLE_DETECTED` when the chain does not end at the
root within `fuel` hops. -/
def collect_names (m : Manifest) : Nat → DirEntry → Except Thrown (List String)
  | 0, e =>
    if e.parent = 4294967295 then .ok []
    else .error (.std_exception "CYCLE_DETECTED")
  | fuel + 1, e =>
    if e.parent = 4294967295 then .ok []
    else
      match m.m_direntries[e.parent]? with
      | none => .error (.std_exception "CYCLE_DETECTED")
      | some parent => (collect_names m fuel parent).map (fun names => entry_name m e :: names)

/-- Modelled from the spec: `Manifest::full_path_for_entry` (declared in `steam2.hpp`, not
in `main.cpp`): the names collected along the parent links within `item_count` hops,
reversed and joined with the separator `sep`; the empty string for the root entry. -/
def Manifest.full_path_for_entry (sep : String) (m : Manifest) (e : DirEntry) :
    Except Thrown String :=
  (collect_names m m.m_direntries.length e).map (fun names => sep.intercalate names.reverse)

/-! ### A concrete platform and library, to run the commands on examples -/

/-- The path operations on a POSIX platform, where the separator is `/`. -/
def posix : PathOps :=
  { make_preferred := fun p => p
    append := fun p q =>
      if q.data.head? = some '/' then q
      else if p = "" ∨ p.data.getLast? = some '/' then p ++ q
      else p ++ "/" ++ q
    remove_filename := fun p => String.mk (p.data.reverse.dropWhile (fun c => c ≠ '/')).reverse
    quoted := fun p =>
      String.mk (Char.ofNat 34 :: p.data.flatMap (fun c =>
        if c = Char.ofNat 34 ∨ c = Char.ofNat 92 then [Char.ofNat 92, c] else [c]) ++
        [Char.ofNat 34]) }

/-- A library over a fixed depot: every Manifest file holds `m`, every Checksum file
holds `c`, the file `j` extracts to `files j`, the keystore is the list `keys`.
The block sum is the sum of the bytes of the window. Directories can be created except
at the empty path and below `/dev/null`. Of the regex sources it knows `(`, which is
ill-formed, `.*`, which matches the strings without a line terminator, and the sources
made of letters, digits, `/`, `_` and `-`, which match themselves; it reports any other
source as ill-formed. -/
def fixed_lib (m : Manifest) (c : Checksum) (files : Int → List Nat)
    (keys : List (Nat × String)) : Lib :=
  { Manifest_ctor := fun _ => .ok m
    full_path_for_entry := Manifest.full_path_for_entry "/"
    Index_ctor := fun _ _ => .ok { m_indexes := [] }
    Storage_ctor := fun path key => .ok { path := path, key := key }
    Checksum_ctor := fun _ => .ok c
    has_key := fun id => (keys.lookup id).isSome
    get := fun id =>
      match keys.lookup id with
      | some key => .ok key
      | none => .error (.std_exception "key not found")
    extract_file := fun _ _ j => files j
    hashblock := fun data offset length => ((data.drop offset.toNat).take length).sum
    filetype_to_string := fun t => toString t
    regex := fun source =>
      if source = ".*" then
        .ok (fun path => path.data.all (fun ch =>
          !(ch.toNat = 10 || ch.toNat = 13 || ch.toNat = 8232 || ch.toNat = 8233)))
      else if source ≠ "(" ∧ source.data.all (fun ch =>
          ch.isAlphanum || ch = '/' || ch = '_' || ch = '-') = true then
        .ok (fun path => path = source)
      else .error (.regex_error "regex_error")
    create_directories := fun path =>
      if path = "" ∨ "/dev/null".data.isPrefixOf path.data then
        .error (.std_exception "filesystem error")
      else .ok ()
    usage := "Usage: steam2-extract" }

/-- A directory entry (type 0, file id `0xFFFFFFFF`). -/
def dir_entry (name_offset parent : Nat) : DirEntry :=
  { name_offset := name_offset, item_size := 0, fileid := 4294967295, dirtype := 0,
    parent := parent, next_sibling := 0, first_child := 0 }

/-- A file entry (type `0x4000`). -/
def file_entry (name_offset fileid parent : Nat) : DirEntry :=
  { name_offset := name_offset, item_size := 11, fileid := fileid, dirtype := 16384,
    parent := parent, next_sibling := 0, first_child := 0 }

/-- The Manifest whose entries are the root, `a`, `a/b`, `a/b/c.txt` and `a/d.txt`. -/
def tree_manifest : Manifest :=
  { m_header := { cacheid := 7, gcfversion := 3 }
    m_direntries :=
      [dir_entry 0 4294967295, dir_entry 1 0, dir_entry 3 1, file_entry 5 0 2,
        file_entry 11 1 1]
    m_names := [Char.ofNat 0, 'a', Char.ofNat 0, 'b', Char.ofNat 0, 'c', '.', 't', 'x', 't',
      Char.ofNat 0, 'd', '.', 't', 'x', 't', Char.ofNat 0] }

/-- The Manifest of the empty depot: the root entry alone. -/
def empty_manifest : Manifest :=
  { m_header := { cacheid := 7, gcfversion := 3 }
    m_direntries := [dir_entry 0 4294967295]
    m_names := [Char.ofNat 0] }

/-- The full path of an entry of `tree_manifest`, empty when it has none. -/
def tree_path (e : DirEntry) : String :=
  match Manifest.full_path_for_entry "/" tree_manifest e with
  | .ok path => path
  | .error _ => ""

/-- The arguments `x s m i --out out` of the extract command. -/
def empty_depot_args : ArgumentParser :=
  { extract_command with
    values := [("storage", "s"), ("manifest", "m"), ("index", "i"), ("--out", "out")] }

/-- The arguments `v s i c` of the validate command. -/
def validate_args : ArgumentParser :=
  { validate_command with
    values := [("storage", "s"), ("index", "i"), ("checksum", "c")] }

/-- The arguments `ls m` of the list command. -/
def ls_args : ArgumentParser :=
  { list_command with values := [("manifest", "m")] }

/-- The command line `v s i c --cacheid abc` as parsed. -/
def validate_abc : CommandLine :=
  { subcommand := some "v"
    values := [("storage", "s"), ("index", "i"), ("checksum", "c"), ("--cacheid", "abc")]
    flags := [] }

/-- The command line `x s m i --filter (` as parsed. -/
def extract_bad_filter : CommandLine :=
  { subcommand := some "x"
    values := [("storage", "s"), ("manifest", "m"), ("index", "i"), ("--filter", "(")]
    flags := [] }

/-- A Checksum file for two files: the first without sums, the second with the two sums
6 and 1. -/
def two_sums : Checksum :=
  { m_map := [{ firstidx := 0, count := 0 }, { firstidx := 0, count := 2 }]
    m_entries := [{ sum := 6 }, { sum := 1 }] }

/-- A Checksum file for one file with the single sum 0. -/
def one_sum : Checksum :=
  { m_map := [{ firstidx := 0, count := 1 }], m_entries := [{ sum := 0 }] }

/-- A Checksum file for one file with 65537 sums, all 0. -/
def huge_checksum : Checksum :=
  { m_map := [{ firstidx := 0, count := 65537 }]
    m_entries := List.replicate 65537 { sum := 0 } }

/-- A buffer of `2^31 + 1` bytes 0. -/
def huge_buffer : List Nat := List.replicate 2147483649 0

/-- A library over a depot whose file extracts to `huge_buffer` and whose Checksum file
is `huge_checksum`. Its block sum adds up the bytes of the window when the window starts
inside the buffer; a window that starts before the buffer is not made of bytes of the
buffer, and its sum is taken to be 1. -/
def huge_lib : Lib :=
  { fixed_lib empty_manifest huge_checksum (fun _ => huge_buffer) [] with
    hashblock := fun data offset length =>
      if offset < 0 then 1 else ((data.drop offset.toNat).take length).sum }

/-- A Checksum file without entries. -/
def no_checksum : Checksum := { m_map := [], m_entries := [] }

/-! ### Notions used to state the properties -/

/-- Every piece followed by the delimiter, all concatenated. -/
def terminated (d : Char) (pieces : List (List Char)) : List Char :=
  pieces.flatMap (fun p => p ++ [d])

/-- The delimiter to append to `s` to close its last field: none when `s` is empty or
ends with the delimiter. -/
def closing (d : Char) (s : List Char) : List Char :=
  if s = [] ∨ s.getLast? = some d then [] else [d]

/-- The pass number `u` of a validator task over a buffer of `n` bytes, in closed form:
the fields are computed from `u` by the formulas of the loop body. -/
def pass_at (first n u : Nat) : Iteration :=
  { k := wrapInt32 u, index := (first + u) % 4294967296,
    offset := wrapInt32 (wrapInt32 u * 32768), to_read := min 32768 (n - u * 32768),
    left := n - (u + 1) * 32768 }

/-- The block sum of window `k` of the buffer `buf`: the window starts at byte
`k * 0x8000` and holds `0x8000` bytes, or what is left of the buffer. -/
def window_sum (lib : Lib) (buf : List Nat) (k : Nat) : Nat :=
  lib.hashblock buf ((k * 32768 : Nat) : Int) (min 32768 (buf.length - k * 32768))

/-- The line prescribed for window `k` of the file at position `j` of `m_map`, whose map
entry is `chk`: `X` is the block sum of the window, `Y` the sum recorded at
`firstidx + k` (taken as 0 beyond the end of `m_entries`). -/
def expected_line (lib : Lib) (s : Storage) (i : Index) (c : Checksum) (onlybad : Bool)
    (j : Nat) (chk : ChecksumMapEntry) (k : Nat) : List String :=
  let X := window_sum lib (lib.extract_file s i (j : Int)) k
  let Y := (c.m_entries.map (fun e => e.sum)).getD (chk.firstidx + k) 0
  if X ≠ Y then [bad_line j X Y]
  else if onlybad then []
  else [ok_line j k]

/-- The lines prescribed for a Checksum: those of every pair `(j, k)` with `j` a position
of `m_map` and `k < m_map[j].count`. -/
def expected_lines (lib : Lib) (s : Storage) (i : Index) (c : Checksum) (onlybad : Bool) :
    List String :=
  c.m_map.enum.flatMap (fun jc =>
    (List.range jc.2.count).flatMap (expected_line lib s i c onlybad jc.1 jc.2))

theorem split_go_acc (d : Char) (rest : List Char) :
    ∀ cur result, split_go d rest cur result = result ++ split_go d rest cur [] := by
  induction rest with
  | nil => intro cur result; simp only [split_go]; split <;> simp
  | cons c r ih =>
    intro cur result
    simp only [split_go]
    split
    · rw [ih [] (result ++ [cur]), ih [] ([] ++ [cur])]; simp
    · exact ih _ _

theorem getLast?_ne_of_not_mem (d : Char) (cur : List Char) (h : d ∉ cur) :
    cur.getLast? ≠ some d := by
  intro hl
  exact h (List.mem_of_getLast?_eq_some hl)

theorem split_go_no_delim (d : Char) (rest : List Char) :
    ∀ cur, d ∉ cur → ∀ p ∈ split_go d rest cur [], d ∉ p := by
  induction rest with
  | nil =>
    intro cur hcur p hp
    simp only [split_go] at hp
    split at hp
    · simp at hp; subst hp; exact hcur
    · simp at hp
  | cons c r ih =>
    intro cur hcur p hp
    simp only [split_go] at hp
    split at hp
    · rw [split_go_acc] at hp
      simp at hp
      rcases hp with hp | hp
      · subst hp; exact hcur
      · exact ih [] (by simp) p hp
    · rename_i hc
      refine ih (cur ++ [c]) ?_ p hp
      simp only [List.mem_append, List.mem_singleton, not_or]
      exact ⟨hcur, fun h => hc h.symm⟩

theorem closing_cons_delim (d : Char) (cur r : List Char) :
    closing d (cur ++ d :: r) = closing d r := by
  unfold closing
  cases r with
  | nil => simp
  | cons x xs =>
    have : (cur ++ d :: x :: xs).getLast? = (x :: xs).getLast? := by
      rw [show cur ++ d :: x :: xs = (cur ++ [d]) ++ (x :: xs) by simp]
      rw [List.getLast?_append]
      cases h : (x :: xs).getLast? with
      | none => simp at h
      | some v => simp
    rw [this]; simp

theorem split_go_terminated (d : Char) (rest : List Char) :
    ∀ cur, d ∉ cur →
      terminated d (split_go d rest cur []) = (cur ++ rest) ++ closing d (cur ++ rest) := by
  induction rest with
  | nil =>
    intro cur hcur
    have hl := getLast?_ne_of_not_mem d cur hcur
    simp only [split_go, List.append_nil]
    by_cases hc : cur = []
    · subst hc; simp [terminated, closing]
    · simp [terminated, closing, hc, hl]
  | cons c r ih =>
    intro cur hcur
    simp only [split_go]
    split
    · rename_i hc
      subst hc
      rw [split_go_acc]
      have := ih [] (by simp)
      simp only [terminated, List.nil_append] at this ⊢
      rw [List.flatMap_append, this, closing_cons_delim]
      simp
    · rename_i hc
      have := ih (cur ++ [c]) (by
        simp only [List.mem_append, List.mem_singleton, not_or]
        exact ⟨hcur, fun h => hc h.symm⟩)
      simpa using this

theorem intercalate_terminated (d : Char) (pieces : List (List Char)) (h : pieces ≠ []) :
    [d].intercalate pieces ++ [d] = terminated d pieces := by
  induction pieces with
  | nil => exact absurd rfl h
  | cons p ps ih =>
    cases ps with
    | nil => simp [terminated, List.intercalate]
    | cons q qs =>
      have := ih (by simp)
      simp only [terminated, List.intercalate, List.intersperse, List.flatten_cons,
        List.flatMap_cons] at this ⊢
      simp only [List.append_assoc] at this ⊢
      rw [this]

theorem split_go_eq_nil (d : Char) (rest : List Char) :
    ∀ cur, split_go d rest cur [] = [] → cur ++ rest = [] := by
  induction rest with
  | nil =>
    intro cur h
    simp only [split_go] at h
    split at h
    · simp at h
    · rename_i hc; simpa using hc
  | cons c r ih =>
    intro cur h
    simp only [split_go] at h
    split at h
    · rw [split_go_acc] at h; simp at h
    · have := ih _ h; simp at this

theorem split_go_skip (d : Char) (x : List Char) :
    ∀ cur rest, d ∉ x → split_go d (x ++ rest) cur [] = split_go d rest (cur ++ x) [] := by
  induction x with
  | nil => intro cur rest _; simp
  | cons c r ih =>
    intro cur rest hx
    simp only [List.mem_cons, not_or] at hx
    have hc : ¬ c = d := fun h => hx.1 h.symm
    show split_go d (c :: (r ++ rest)) cur [] = _
    simp only [split_go, hc, if_false]
    rw [ih _ _ hx.2]; simp

/-- Claim C10: no piece returned by `split s d` contains `d`; joining the pieces with `d`
gives back `s` when `s` is non-empty and does not end with `d`; when `s` ends with `d`,
joining the pieces with `d` and appending one `d` gives back `s`; `split` of the empty
string is the empty list; and `split (host ++ [d] ++ port) d = [host, port]` when `d`
occurs neither in `host` nor in `port` and `port` is non-empty. -/
theorem split_spec (s : List Char) (d : Char) :
    (∀ p ∈ split s d, d ∉ p) ∧
    (s ≠ [] → s.getLast? ≠ some d → [d].intercalate (split s d) = s) ∧
    (s.getLast? = some d → [d].intercalate (split s d) ++ [d] = s) ∧
    split [] d = [] ∧
    (∀ host port : List Char, d ∉ host → d ∉ port → port ≠ [] →
      split (host ++ [d] ++ port) d = [host, port]) := by
  have hterm := split_go_terminated d s [] (by simp)
  simp only [List.nil_append] at hterm
  have hne : s ≠ [] → split s d ≠ [] := by
    intro hs h
    have := split_go_eq_nil d s [] h
    exact hs (by simpa using this)
  refine ⟨split_go_no_delim d s [] (by simp), ?_, ?_, ?_, ?_⟩
  · intro hs hl
    have h1 := intercalate_terminated d (split s d) (hne hs)
    have h2 : closing d s = [d] := by simp [closing, hs, hl]
    unfold split at h1
    rw [hterm, h2] at h1
    exact List.append_cancel_right h1
  · intro hl
    have hs : s ≠ [] := by intro h; subst h; simp at hl
    have h1 := intercalate_terminated d (split s d) (hne hs)
    have h2 : closing d s = [] := by simp [closing, hl]
    unfold split at h1 ⊢
    rw [h1, hterm, h2]; simp
  · simp [split, split_go]
  · intro host port hh hp hpne
    unfold split
    rw [List.append_assoc, split_go_skip d host [] _ hh]
    simp only [List.nil_append, List.singleton_append, split_go, if_true]
    rw [split_go_acc]
    have := split_go_skip d port [] [] hp
    simp only [List.append_nil, List.nil_append] at this
    show [host] ++ split_go d port [] [] = [host, port]
    rw [this]
    simp [split_go, hpne]


/-- Witness of claim C10 on `a::b`, on `a:` and on `127.0.0.1:27030`. -/
theorem split_spec_witness :
    [':'].intercalate (split ['a', ':', ':', 'b'] ':') = ['a', ':', ':', 'b'] ∧
    [':'].intercalate (split ['a', ':'] ':') ++ [':'] = ['a', ':'] ∧
    split ("127.0.0.1".data ++ [':'] ++ "27030".data) ':' = ["127.0.0.1".data, "27030".data] :=
  ⟨(split_spec ['a', ':', ':', 'b'] ':').2.1 (by decide) (by decide),
   (split_spec ['a', ':'] ':').2.2.1 (by decide),
   (split_spec [] ':').2.2.2.2 "127.0.0.1".data "27030".data (by decide) (by decide)
     (by decide)⟩

/-! ### `sanitize_path` -/

theorem erase_remove_eq_filter (v : Char) (l : List Char) :
    erase_remove v l = l.filter (fun c => c ≠ v) := by
  induction l with
  | nil => rfl
  | cons c r ih =>
    by_cases h : c = v
    · simp [erase_remove, h, ih]
    · simp [erase_remove, h, ih]

theorem erase_remove_length (v : Char) (l : List Char) :
    (erase_remove v l).length + l.count v = l.length := by
  induction l with
  | nil => rfl
  | cons c r ih =>
    by_cases h : c = v
    · subst h
      simp only [erase_remove, if_true, List.count_cons_self, List.length_cons]
      omega
    · simp only [erase_remove, h, if_false, List.length_cons]
      rw [List.count_cons_of_ne (fun e => h e.symm)]
      omega

/-- Claim C5: `sanitize_path s` is `s` with every `:` removed and every other character
kept in its order: it is the subsequence of the characters of `s` other than `:`, it
contains no `:`, it equals `s` when `s` contains no `:`, and its length is the length of
`s` minus the number of `:` in `s`. -/
theorem sanitize_path_spec (s : String) :
    (sanitize_path s).data = s.data.filter (fun c => c ≠ ':') ∧
    (sanitize_path s).data.Sublist s.data ∧
    ':' ∉ (sanitize_path s).data ∧
    (':' ∉ s.data → sanitize_path s = s) ∧
    (sanitize_path s).length = s.length - s.data.count ':' := by
  have hf : (sanitize_path s).data = s.data.filter (fun c => c ≠ ':') :=
    erase_remove_eq_filter ':' s.data
  refine ⟨hf, ?_, ?_, ?_, ?_⟩
  · rw [hf]; exact List.filter_sublist _
  · rw [hf]; simp
  · intro h
    have : s.data.filter (fun c => c ≠ ':') = s.data := by
      rw [List.filter_eq_self]
      intro a ha
      have : a ≠ ':' := fun e => h (e ▸ ha)
      simpa using this
    show String.mk (erase_remove ':' s.data) = s
    rw [erase_remove_eq_filter, this]
  · have := erase_remove_length ':' s.data
    show (erase_remove ':' s.data).length = s.data.length - s.data.count ':'
    omega

/-- Witness of claim C5 on a path without `:` and its value on `C:/a:b/`. -/
theorem sanitize_path_spec_witness :
    sanitize_path "out/a/b/" = "out/a/b/" ∧ sanitize_path "C:/a:b/" = "C/ab/" :=
  ⟨(sanitize_path_spec "out/a/b/").2.2.2.1 (by decide), by decide⟩

/-! ### `cc_extract` -/

/-- Claim C6, as amended: for a Manifest whose only entry is the root directory
(`dirtype == 0`), `cc_extract` creates no directory at all, the output root included,
and submits no file-extraction task. -/
theorem cc_extract_root_only (lib : Lib) (ops : PathOps) (args : ArgumentParser)
    (manifest : Manifest) (root : DirEntry)
    (hm : (args.get "manifest").bind lib.Manifest_ctor = .ok manifest)
    (hr : manifest.m_direntries = [root]) (hd : root.dirtype = 0) :
    (cc_extract lib ops args).created_directories = [] ∧
    (cc_extract lib ops args).extract_tasks = [] := by
  unfold cc_extract
  rw [hm]
  simp only [hr]
  constructor
  all_goals
    repeat' split
    all_goals simp [Run.throw, Run.done, extract_loop, hd]

/-- Witness of claim C6 as amended, on the empty depot. -/
theorem cc_extract_root_only_witness :
    (cc_extract (fixed_lib empty_manifest no_checksum (fun _ => []) []) posix
      empty_depot_args).created_directories = [] ∧
    (cc_extract (fixed_lib empty_manifest no_checksum (fun _ => []) []) posix
      empty_depot_args).extract_tasks = [] :=
  cc_extract_root_only (fixed_lib empty_manifest no_checksum (fun _ => []) []) posix
    empty_depot_args empty_manifest (dir_entry 0 4294967295) (by rfl) (by rfl) (by rfl)

/-- Counterexample to claim C6 as stated: on the empty depot with `--out out`,
`cc_extract` returns normally and has called `create_directories` for no path, so the
output root `out` is not created. -/
theorem cc_extract_empty_depot_creates_nothing :
    (cc_extract (fixed_lib empty_manifest no_checksum (fun _ => []) []) posix
      empty_depot_args).result = .ok () ∧
    extract_base posix empty_depot_args empty_manifest = "out" ∧
    "out" ∉ (cc_extract (fixed_lib empty_manifest no_checksum (fun _ => []) []) posix
      empty_depot_args).created_directories :=
  ⟨rfl, by decide, by decide⟩

/-- The loop of `cc_extract` leaves the recorded key untouched. -/
theorem extract_loop_storage_key (lib : Lib) (ops : PathOps) (manifest : Manifest)
    (filter : Option (String → Bool)) (base : String) (entries : List DirEntry) :
    ∀ run : Run,
      (extract_loop lib ops manifest filter base entries run).storage_key =
        run.storage_key := by
  induction entries with
  | nil => intro run; rfl
  | cons e rest ih =>
    intro run
    simp only [extract_loop]
    repeat' split
    all_goals first | rfl | rw [ih]

/-- Claim C8: the key `cc_extract` hands to `Storage` follows the three-tier rule. For
the subparser `x` as `main` registers it, with any values and flags given, the key of
line 81 is the keystore key of `cacheid` when `has_key(cacheid)` holds (whether or not
`--key` was given), else the value of `--key` when one was given, else the string of 32
characters `0`; once the Manifest and the Index are read, that key is computed and the
`storage` argument is there, `cc_extract` hands this key to the constructor of
`Storage`; and any key it hands to `Storage` is that key for the `cacheid` of the
Manifest it read. -/
theorem extract_key_three_tier (lib : Lib) (ops : PathOps)
    (values : List (String × String)) (flags : List String) (cacheid : Nat) :
    (extract_key lib { extract_command with values := values, flags := flags } cacheid =
      if lib.has_key cacheid then lib.get cacheid
      else
        match values.lookup "--key" with
        | some given => .ok given
        | none => .ok (String.mk (List.replicate 32 '0'))) ∧
    (∀ (manifest : Manifest) (index : Index) (key path : String),
      (ArgumentParser.get { extract_command with values := values, flags := flags }
        "manifest").bind lib.Manifest_ctor = .ok manifest →
      (ArgumentParser.get { extract_command with values := values, flags := flags }
        "index").bind (fun q => lib.Index_ctor q
          (some (if flags.contains "--v2" then IndexVersion.v2 else IndexVersion.v3))) =
        .ok index →
      extract_key lib { extract_command with values := values, flags := flags }
        manifest.m_header.cacheid = .ok key →
      ArgumentParser.get { extract_command with values := values, flags := flags }
        "storage" = .ok path →
      (cc_extract lib ops
        { extract_command with values := values, flags := flags }).storage_key =
        some key) ∧
    (∀ key : String,
      (cc_extract lib ops
        { extract_command with values := values, flags := flags }).storage_key = some key →
      ∃ manifest : Manifest,
        (ArgumentParser.get { extract_command with values := values, flags := flags }
          "manifest").bind lib.Manifest_ctor = .ok manifest ∧
        extract_key lib { extract_command with values := values, flags := flags }
          manifest.m_header.cacheid = .ok key) := by
  refine ⟨?_, ?_, ?_⟩
  · unfold extract_key
    by_cases hk : lib.has_key cacheid = true
    · simp [hk]
    · simp only [hk, Bool.false_eq_true, if_false]
      unfold ArgumentParser.get
      cases hv : values.lookup "--key" with
      | some given => simp
      | none =>
        simp only [extract_command]
        rfl
  · intro manifest index key path hm hi hk hs
    unfold cc_extract
    rw [hm]
    simp only [ArgumentParser.flag]
    rw [hi]
    simp only
    rw [hk]
    simp only
    rw [hs]
    simp only
    split
    · rfl
    · split
      · rfl
      · rw [extract_loop_storage_key]
      · rfl
      · rw [extract_loop_storage_key]
  · intro key hkey
    unfold cc_extract at hkey
    split at hkey
    · simp [Run.throw, Run.done] at hkey
    · rename_i manifest hm
      refine ⟨manifest, hm, ?_⟩
      simp only at hkey
      split at hkey
      · simp [Run.throw, Run.done] at hkey
      · split at hkey
        · simp [Run.throw, Run.done] at hkey
        · rename_i key0 hk0
          have hsame : key0 = key := by
            split at hkey
            · simp [Run.throw, Run.done] at hkey
            · split at hkey
              · simpa [Run.throw, Run.done] using hkey
              · split at hkey
                · simpa [Run.done] using hkey
                · rw [extract_loop_storage_key] at hkey; simpa [Run.done] using hkey
                · simpa [Run.done] using hkey
                · rw [extract_loop_storage_key] at hkey; simpa [Run.done] using hkey
          rw [← hsame]; exact hk0

/-- Witness of claim C8: with the keystore entry `7 -> k7`, the run `x s m i --key user`
over a Manifest of cache 7 hands `k7`, not `user`, to `Storage`, and `k7` is the key of
line 81 for cache 7. -/
theorem extract_key_three_tier_witness :
    (cc_extract (fixed_lib tree_manifest no_checksum (fun _ => []) [(7, "k7")]) posix
      { extract_command with
        values := [("storage", "s"), ("manifest", "m"), ("index", "i"), ("--key", "user")]
        flags := [] }).storage_key = some "k7" ∧
    extract_key (fixed_lib tree_manifest no_checksum (fun _ => []) [(7, "k7")])
      { extract_command with
        values := [("storage", "s"), ("manifest", "m"), ("index", "i"), ("--key", "user")]
        flags := [] } tree_manifest.m_header.cacheid = .ok "k7" := by
  have handed := (extract_key_three_tier
    (fixed_lib tree_manifest no_checksum (fun _ => []) [(7, "k7")]) posix
    [("storage", "s"), ("manifest", "m"), ("index", "i"), ("--key", "user")] []
    7).2.1 tree_manifest { m_indexes := [] } "k7" "s" rfl rfl rfl rfl
  refine ⟨handed, ?_⟩
  obtain ⟨manifest, hm, hk⟩ := (extract_key_three_tier
    (fixed_lib tree_manifest no_checksum (fun _ => []) [(7, "k7")]) posix
    [("storage", "s"), ("manifest", "m"), ("index", "i"), ("--key", "user")] []
    7).2.2 "k7" handed
  have h : tree_manifest = manifest := Except.ok.inj hm
  rw [h]
  exact hk

/-! ### `cc_ls` -/

/-- The loop of `cc_ls` appends the preferred form of every non-empty full path, in the
order of the table, and changes nothing else. -/
theorem ls_loop_spec (lib : Lib) (ops : PathOps) (manifest : Manifest)
    (p : DirEntry → String) (entries : List DirEntry) :
    ∀ run : Run,
      (∀ e ∈ entries, lib.full_path_for_entry manifest e = .ok (p e)) →
      ls_loop lib ops manifest entries run =
        { run with
          stdout := run.stdout ++
            ((entries.map p).filter (fun name => name ≠ "")).map ops.make_preferred } := by
  induction entries with
  | nil => intro run _; simp [ls_loop]
  | cons e rest ih =>
    intro run hp
    have hrest : ∀ x ∈ rest, lib.full_path_for_entry manifest x = .ok (p x) :=
      fun x hx => hp x (List.mem_cons_of_mem _ hx)
    have he := hp e (List.mem_cons_self _ _)
    by_cases hn : p e = ""
    · simp [ls_loop, he, hn, ih run hrest]
    · simp [ls_loop, he, hn, ih _ hrest]

/-- Claim C7, as amended: after its header line, `cc_ls` prints the full path of every
Manifest entry whose full path is not empty, directories included, one per line, in
Manifest entry order; for the Manifest whose entries are root, `a`, `a/b`, `a/b/c.txt`,
`a/d.txt` the path lines are `a`, `a/b`, `a/b/c.txt`, `a/d.txt`, and for a Manifest with
only the root entry, whose full path is empty, no path line is printed. -/
theorem cc_ls_lines :
    (∀ (lib : Lib) (ops : PathOps) (args : ArgumentParser) (manifest : Manifest)
      (p : DirEntry → String),
      (args.get "manifest").bind lib.Manifest_ctor = .ok manifest →
      (∀ e ∈ manifest.m_direntries, lib.full_path_for_entry manifest e = .ok (p e)) →
      (cc_ls lib ops args).stdout =
        ls_header manifest ::
          ((manifest.m_direntries.map p).filter (fun name => name ≠ "")).map
            ops.make_preferred) ∧
    (cc_ls (fixed_lib tree_manifest no_checksum (fun _ => []) []) posix ls_args).stdout.tail =
      ["a", "a/b", "a/b/c.txt", "a/d.txt"] ∧
    (∀ (lib : Lib) (ops : PathOps) (args : ArgumentParser) (manifest : Manifest)
      (root : DirEntry),
      (args.get "manifest").bind lib.Manifest_ctor = .ok manifest →
      manifest.m_direntries = [root] →
      lib.full_path_for_entry manifest root = .ok "" →
      (cc_ls lib ops args).stdout.tail = []) := by
  have main : ∀ (lib : Lib) (ops : PathOps) (args : ArgumentParser) (manifest : Manifest)
      (p : DirEntry → String),
      (args.get "manifest").bind lib.Manifest_ctor = .ok manifest →
      (∀ e ∈ manifest.m_direntries, lib.full_path_for_entry manifest e = .ok (p e)) →
      (cc_ls lib ops args).stdout =
        ls_header manifest ::
          ((manifest.m_direntries.map p).filter (fun name => name ≠ "")).map
            ops.make_preferred := by
    intro lib ops args manifest p hm hp
    unfold cc_ls
    rw [hm]
    simp only
    rw [ls_loop_spec lib ops manifest p manifest.m_direntries _ hp]
    simp [Run.done]
  refine ⟨main, by decide, ?_⟩
  intro lib ops args manifest root hm hr hroot
  rw [main lib ops args manifest (fun _ => "") hm (by
    intro e he
    rw [hr] at he
    simp only [List.mem_singleton] at he
    rw [he]; exact hroot)]
  simp

/-- Witness of claim C7 as amended, on the empty depot: the header line alone is printed. -/
theorem cc_ls_lines_witness :
    (cc_ls (fixed_lib empty_manifest no_checksum (fun _ => []) []) posix ls_args).stdout =
      ["File list for cache 7 version 3:"] := by
  rw [cc_ls_lines.1 (fixed_lib empty_manifest no_checksum (fun _ => []) []) posix ls_args
    empty_manifest (fun _ => "") (by rfl) (by
      intro e he
      simp only [empty_manifest, List.mem_singleton] at he
      rw [he]; rfl)]
  decide

/-- Counterexample to claim C7 as stated: for the Manifest whose entries are root, `a`,
`a/b`, `a/b/c.txt`, `a/d.txt`, the full paths of the file entries are `a/b/c.txt` and
`a/d.txt`, yet `cc_ls` prints the four path lines `a`, `a/b`, `a/b/c.txt`, `a/d.txt`. -/
theorem cc_ls_prints_directories :
    (tree_manifest.m_direntries.filter (fun e => e.dirtype ≠ 0)).map tree_path =
      ["a/b/c.txt", "a/d.txt"] ∧
    (cc_ls (fixed_lib tree_manifest no_checksum (fun _ => []) []) posix ls_args).stdout.tail =
      ["a", "a/b", "a/b/c.txt", "a/d.txt"] ∧
    (cc_ls (fixed_lib tree_manifest no_checksum (fun _ => []) []) posix ls_args).stdout.tail ≠
      (tree_manifest.m_direntries.filter (fun e => e.dirtype ≠ 0)).map tree_path := by
  decide

/-! ### `main` -/

/-- Claim C4, as amended: `main` returns exit status 1 when argument parsing throws a
`std::exception`, and also when the dispatched command lets a `std::exception` escape
(the `try` block encloses the dispatch); it returns 0 when argument parsing succeeds and
the dispatched command returns normally, which covers `cc_extract` with an invalid
filter: once its Manifest, Index, key and Storage are set up, it catches the
`std::regex_error`, prints it to standard error and returns. -/
theorem main_exit_status (lib : Lib) (ops : PathOps) :
    (∀ what : String,
      (main lib ops (.error (.std_exception what))).2 = some 1 ∧
      (main lib ops (.error (.regex_error what))).2 = some 1) ∧
    (∀ cl : CommandLine,
      ((dispatch cl (parsers lib ops)).result = .ok () → (main lib ops (.ok cl)).2 = some 0) ∧
      (∀ what : String,
        (dispatch cl (parsers lib ops)).result = .error (.std_exception what) ∨
        (dispatch cl (parsers lib ops)).result = .error (.regex_error what) →
        (main lib ops (.ok cl)).2 = some 1)) ∧
    (∀ (values : List (String × String)) (flags : List String) (manifest : Manifest)
      (index : Index) (key what : String) (storage : Storage),
      (ArgumentParser.get { extract_command with values := values, flags := flags }
        "manifest").bind lib.Manifest_ctor = .ok manifest →
      (ArgumentParser.get { extract_command with values := values, flags := flags }
        "index").bind (fun q => lib.Index_ctor q
          (some (if flags.contains "--v2" then IndexVersion.v2 else IndexVersion.v3))) =
        .ok index →
      extract_key lib { extract_command with values := values, flags := flags }
        manifest.m_header.cacheid = .ok key →
      (ArgumentParser.get { extract_command with values := values, flags := flags }
        "storage").bind (fun q => lib.Storage_ctor q key) = .ok storage →
      (ArgumentParser.get { extract_command with values := values, flags := flags }
        "--filter").bind lib.regex = .error (.regex_error what) →
      (main lib ops (.ok { subcommand := some "x", values := values, flags := flags })).1.stderr
        = [what] ∧
      (main lib ops (.ok { subcommand := some "x", values := values, flags := flags })).2
        = some 0) := by
  refine ⟨?_, ?_, ?_⟩
  · intro what
    constructor <;> rfl
  · intro cl
    constructor
    · intro h
      simp only [main, main_try, h]
    · intro what h
      rcases h with h | h <;> simp only [main, main_try, h]
  · intro values flags manifest index key what storage hm hi hk hs hf
    have hrun : dispatch { subcommand := some "x", values := values, flags := flags }
        (parsers lib ops) =
        { Run.done with storage_key := some key, stderr := [what] } := by
      simp only [dispatch, parsers, extract_command, if_true]
      unfold cc_extract
      simp only [extract_command] at hm hi hk hs hf
      simp only [ArgumentParser.flag]
      rw [hm]
      simp only
      rw [hi]
      simp only
      rw [hk]
      simp only
      cases hg : ArgumentParser.get
          { name := "x", defaults := [("--key", default_key)], values := values,
            flags := flags } "storage" with
      | error t => rw [hg] at hs; cases hs
      | ok path =>
        rw [hg] at hs
        have hs2 : lib.Storage_ctor path key = .ok storage := hs
        simp only
        rw [hs2]
        simp only
        rw [hf]
    simp only [main, main_try, hrun, Run.done]
    exact ⟨trivial, trivial⟩

/-- Witness of claim C4 as amended: `x s m i --filter (` exits with status 0 after the
regex error was printed. -/
theorem main_exit_status_witness :
    (main (fixed_lib tree_manifest no_checksum (fun _ => []) []) posix
      (.ok extract_bad_filter)).1.stderr = ["regex_error"] ∧
    (main (fixed_lib tree_manifest no_checksum (fun _ => []) []) posix
      (.ok extract_bad_filter)).2 = some 0 :=
  (main_exit_status (fixed_lib tree_manifest no_checksum (fun _ => []) []) posix).2.2
    [("storage", "s"), ("manifest", "m"), ("index", "i"), ("--filter", "(")] []
    tree_manifest { m_indexes := [] } default_key "regex_error"
    { path := "s", key := default_key } rfl rfl rfl rfl rfl

/-- Counterexample to claim C4 as stated: the command line `v s i c --cacheid abc`
parses, `cc_validate` lets the `std::invalid_argument` of `std::stoi` escape, and `main`
returns 1, not 0. -/
theorem main_validate_bad_cacheid_exits_1 :
    stoi "abc" = .error (.std_exception "stoi") ∧
    (main (fixed_lib tree_manifest no_checksum (fun _ => []) []) posix
      (.ok validate_abc)).2 = some 1 ∧
    (main (fixed_lib tree_manifest no_checksum (fun _ => []) []) posix
      (.ok validate_abc)).2 ≠ some 0 :=
  ⟨rfl, by decide, by decide⟩

/-! ### `cc_validate` -/

theorem toU32_wrapInt32 (u : Nat) (h : u < 4294967296) : toU32 (wrapInt32 (u : Int)) = u := by
  unfold toU32 wrapInt32
  omega

theorem wrapInt32_succ (u : Nat) : wrapInt32 (wrapInt32 (u : Int) + 1) = wrapInt32 ((u + 1 : Nat) : Int) := by
  unfold wrapInt32
  omega

theorem wrapInt32_small (u : Nat) (h : u < 2147483648) : wrapInt32 (u : Int) = (u : Int) := by
  unfold wrapInt32
  omega

/-- The passes of the loop of a validator task, from pass `u` on: with `r` passes still
to make, `r + 1` units of fuel reach the end of the loop. -/
theorem validate_iterations_from (first count n : Nat) (hc : count < 4294967296) :
    ∀ r u : Nat, u + r = count →
      validate_iterations first count (r + 1) (wrapInt32 (u : Int)) (n - u * 32768) =
        some ((List.range' u r).map (pass_at first n)) := by
  intro r
  induction r with
  | zero =>
    intro u hu
    have : toU32 (wrapInt32 (u : Int)) = u := toU32_wrapInt32 u (by omega)
    simp only [validate_iterations, this]
    have : ¬ u < count := by omega
    simp [this]
  | succ r ih =>
    intro u hu
    have hu32 : toU32 (wrapInt32 (u : Int)) = u := toU32_wrapInt32 u (by omega)
    have hlt : u < count := by omega
    have hleft : n - u * 32768 - min 32768 (n - u * 32768) = n - (u + 1) * 32768 := by omega
    rw [validate_iterations]
    simp only [hu32, hlt, if_true, hleft, wrapInt32_succ]
    rw [ih (u + 1) (by omega)]
    simp [List.range', pass_at]

/-- The passes of a validator task in closed form. -/
theorem validate_iterations_eq (first count n : Nat) (hc : count < 4294967296) :
    validate_iterations first count (count + 1) 0 n =
      some ((List.range count).map (pass_at first n)) := by
  have := validate_iterations_from first count n hc count 0 (by omega)
  simp only [Nat.zero_mul, Nat.sub_zero] at this
  rw [List.range_eq_range']
  exact this

theorem to_read_sum (n : Nat) : ∀ r u : Nat,
    ((List.range' u r).map (fun i => min 32768 (n - i * 32768))).sum =
      min (n - u * 32768) (r * 32768) := by
  intro r
  induction r with
  | zero => intro u; simp
  | succ r ih =>
    intro u
    simp only [List.range', List.map_cons, List.sum_cons]
    rw [ih (u + 1)]
    omega

/-- Below pass 65536 the window of pass `k` is the one of the 32 KiB split: it starts at
byte `k * 0x8000` and has `min(0x8000, n - k * 0x8000)` bytes, no `int` having wrapped. -/
theorem validator_window_small (first c n k : Nat) (hc : c < 4294967296) (hk : k < c)
    (hsmall : k < 65536) :
    ∃ passes : List Iteration,
      validate_iterations first c (c + 1) 0 n = some passes ∧
      passes[k]? = some
        { k := (k : Int), index := (first + k) % 4294967296,
          offset := ((k * 32768 : Nat) : Int), to_read := min 32768 (n - k * 32768),
          left := n - (k + 1) * 32768 } := by
  refine ⟨(List.range c).map (pass_at first n), validate_iterations_eq first c n hc, ?_⟩
  rw [List.getElem?_map, List.getElem?_range hk]
  have h1 : wrapInt32 (k : Int) = (k : Int) := wrapInt32_small k (by omega)
  have h2 : wrapInt32 ((k : Int) * 32768) = ((k * 32768 : Nat) : Int) := by
    unfold wrapInt32
    push_cast
    omega
  simp only [Option.map_some', pass_at, h1, h2]

/-- Claim C9, evaluated at its failing input: for a buffer of `2^31 + 1` bytes and a map
entry with count 65537, the loop makes its 65537 passes, and in pass `k = 65536` the
`int` product `k * 0x8000` has wrapped to `-2^31` while `to_read` is 1: the window of one
byte handed to `hashblock` starts `2^31` bytes before the buffer, not at byte `2^31`
inside it. -/
theorem validator_window_65536_wraps :
    ∃ passes : List Iteration,
      validate_iterations 0 65537 (65537 + 1) 0 2147483649 = some passes ∧
      passes.length = 65537 ∧
      passes[65536]? = some
        { k := 65536, index := 65536, offset := -2147483648, to_read := 1, left := 0 } ∧
      wrapInt32 (65536 * 32768) ≠ 65536 * 32768 := by
  refine ⟨(List.range 65537).map (pass_at 0 2147483649),
    validate_iterations_eq 0 65537 2147483649 (by decide), by simp, ?_, by decide⟩
  rw [List.getElem?_map, List.getElem?_range (by decide)]
  decide

theorem offset_small (u : Nat) (hu : u < 65536) :
    wrapInt32 ((u : Int) * 32768) = ((u * 32768 : Nat) : Int) := by
  unfold wrapInt32
  push_cast
  omega

/-- In a pass without overflow and with `firstidx + k` inside `m_entries`, the loop body
prints the prescribed line. -/
theorem iteration_line_pass (lib : Lib) (s : Storage) (i : Index) (c : Checksum)
    (onlybad : Bool) (j : Nat) (chk : ChecksumMapEntry) (u : Nat) (hu : u < 65536)
    (hidx : chk.firstidx + u < c.m_entries.length)
    (hlen : c.m_entries.length ≤ 4294967296) :
    ∃ line : Option String,
      iteration_line lib c onlybad (j : Int) (lib.extract_file s i (j : Int))
        (pass_at chk.firstidx (lib.extract_file s i (j : Int)).length u) = some line ∧
      line.toList = expected_line lib s i c onlybad j chk u := by
  have hmod : (chk.firstidx + u) % 4294967296 = chk.firstidx + u :=
    Nat.mod_eq_of_lt (by omega)
  have hget : c.m_entries[chk.firstidx + u]? = some (c.m_entries[chk.firstidx + u]) :=
    List.getElem?_eq_getElem hidx
  have hY : (c.m_entries.map (fun e => e.sum)).getD (chk.firstidx + u) 0 =
      (c.m_entries[chk.firstidx + u]).sum := by
    simp [List.getD_eq_getElem?_getD, hget]
  unfold iteration_line pass_at expected_line window_sum
  simp only [hmod, hget, wrapInt32_small u (by omega), offset_small u hu, hY]
  generalize lib.hashblock (lib.extract_file s i (j : Int)) ((u * 32768 : Nat) : Int)
    (min 32768 ((lib.extract_file s i (j : Int)).length - u * 32768)) = X
  generalize (c.m_entries[chk.firstidx + u]).sum = Y
  by_cases hx : Y = X
  · have hx2 : X = Y := hx.symm
    cases onlybad
    · exact ⟨some (ok_line j u), by simp [hx], by simp [hx2]⟩
    · exact ⟨none, by simp [hx], by simp [hx2]⟩
  · have hx2 : ¬ X = Y := fun e => hx e.symm
    exact ⟨some (bad_line j X Y), by simp [hx], by simp [hx2]⟩

theorem task_lines_passes (lib : Lib) (s : Storage) (i : Index) (c : Checksum)
    (onlybad : Bool) (j : Nat) (chk : ChecksumMapEntry)
    (hlen : c.m_entries.length ≤ 4294967296) :
    ∀ l : List Nat, (∀ u ∈ l, u < 65536 ∧ chk.firstidx + u < c.m_entries.length) →
      task_lines lib c onlybad (j : Int) (lib.extract_file s i (j : Int))
        (l.map (pass_at chk.firstidx (lib.extract_file s i (j : Int)).length)) =
        some (l.flatMap (expected_line lib s i c onlybad j chk)) := by
  intro l
  induction l with
  | nil => intro _; rfl
  | cons u rest ih =>
    intro h
    obtain ⟨line, hline, hexp⟩ := iteration_line_pass lib s i c onlybad j chk u
      (h u (List.mem_cons_self _ _)).1 (h u (List.mem_cons_self _ _)).2 hlen
    simp only [List.map_cons, task_lines, hline,
      ih (fun x hx => h x (List.mem_cons_of_mem _ hx)), Option.map_some', hexp,
      List.flatMap_cons]

/-- When every index read lies inside `m_entries`, a task prints its lines, and each
line printed in a pass is among them. -/
theorem task_lines_some (lib : Lib) (c : Checksum) (onlybad : Bool) (j : Int)
    (buf : List Nat) :
    ∀ passes : List Iteration, (∀ it ∈ passes, it.index < c.m_entries.length) →
      ∃ lines : List String,
        task_lines lib c onlybad j buf passes = some lines ∧
        ∀ it ∈ passes, ∀ line : String,
          iteration_line lib c onlybad j buf it = some (some line) → line ∈ lines := by
  intro passes
  induction passes with
  | nil => intro _; exact ⟨[], rfl, fun it hit => by cases hit⟩
  | cons it rest ih =>
    intro h
    obtain ⟨lines, hl, hmem⟩ := ih (fun x hx => h x (List.mem_cons_of_mem _ hx))
    obtain ⟨e, hget⟩ : ∃ e, c.m_entries[it.index]? = some e :=
      ⟨_, List.getElem?_eq_getElem (h it (List.mem_cons_self _ _))⟩
    have hsome : ∃ l : Option String, iteration_line lib c onlybad j buf it = some l := by
      unfold iteration_line
      rw [hget]
      simp only
      split
      · exact ⟨_, rfl⟩
      · split
        · exact ⟨_, rfl⟩
        · exact ⟨_, rfl⟩
    obtain ⟨l, hline⟩ := hsome
    refine ⟨l.toList ++ lines, by simp [task_lines, hline, hl], ?_⟩
    intro x hx line hxl
    rcases List.mem_cons.mp hx with rfl | hx
    · rw [hline] at hxl
      have : l = some line := Option.some.inj hxl
      subst this
      simp
    · exact List.mem_append_right _ (hmem x hx line hxl)

/-- What a validator task does, for a map entry without overflow whose sums lie inside
`m_entries`. -/
theorem validator_task_eq (lib : Lib) (s : Storage) (i : Index) (c : Checksum)
    (onlybad : Bool) (j : Nat) (chk : ChecksumMapEntry) (hcnt : chk.count ≤ 65536)
    (hpos : chk.count ≠ 0)
    (hidx : chk.firstidx + chk.count ≤ c.m_entries.length)
    (hlen : c.m_entries.length ≤ 4294967296) :
    validator_task lib s i c onlybad (j : Int) chk =
      some
        { j := (j : Int)
          passes := (List.range chk.count).map
            (pass_at chk.firstidx (lib.extract_file s i (j : Int)).length)
          lines := (List.range chk.count).flatMap (expected_line lib s i c onlybad j chk) } := by
  have h1 : chk.count % 4294967296 = chk.count := Nat.mod_eq_of_lt (by omega)
  have h2 : chk.firstidx % 4294967296 = chk.firstidx := Nat.mod_eq_of_lt (by omega)
  unfold validator_task
  simp only [h1, h2]
  rw [validate_iterations_eq chk.firstidx chk.count _ (by omega)]
  simp only
  rw [task_lines_passes lib s i c onlybad j chk hlen]
  intro u hu
  rw [List.mem_range] at hu
  omega

/-- The task of the map entry at position `j0 + j` is among the tasks the loop of
`cc_validate` detaches from position `j0` on. -/
theorem validate_submit_mem (lib : Lib) (s : Storage) (i : Index) (c : Checksum)
    (onlybad : Bool) :
    ∀ (l : List ChecksumMapEntry) (j0 j : Nat) (chk : ChecksumMapEntry),
      l[j]? = some chk → chk.count ≠ 0 → j0 + j < 2147483648 →
      validator_task lib s i c onlybad ((j0 + j : Nat) : Int) chk ∈
        validate_submit lib s i c onlybad l (wrapInt32 (j0 : Int)) := by
  intro l
  induction l with
  | nil => intro j0 j chk h; simp at h
  | cons x rest ih =>
    intro j0 j chk h hpos hj
    have hnext : wrapInt32 (wrapInt32 (j0 : Int) + 1) = wrapInt32 ((j0 + 1 : Nat) : Int) :=
      wrapInt32_succ j0
    cases j with
    | zero =>
      simp only [List.getElem?_cons_zero, Option.some.injEq] at h
      subst h
      have hj0 : wrapInt32 (j0 : Int) = (j0 : Int) := wrapInt32_small j0 (by omega)
      simp only [validate_submit, hpos, if_false, Nat.add_zero, hj0]
      exact List.mem_cons_self _ _
    | succ j' =>
      simp only [List.getElem?_cons_succ] at h
      have := ih (j0 + 1) j' chk h hpos (by omega)
      have hidx : j0 + 1 + j' = j0 + (j' + 1) := by omega
      rw [hidx] at this
      simp only [validate_submit, hnext]
      split
      · exact this
      · exact List.mem_cons_of_mem _ this

/-- Once its key, Storage, Index and Checksum are set up, the tasks `cc_validate` detaches
are those of its loop over `c.m_map`, started with `j = 0`. -/
theorem cc_validate_runs_submit (lib : Lib) (args : ArgumentParser) (key : String)
    (s : Storage) (i : Index) (c : Checksum)
    (hk : validate_key lib args = .ok key)
    (hs : (args.get "storage").bind (fun q => lib.Storage_ctor q key) = .ok s)
    (hi : (args.get "index").bind (fun q => lib.Index_ctor q none) = .ok i)
    (hc : (args.get "checksum").bind lib.Checksum_ctor = .ok c) :
    (cc_validate lib args).validate_tasks =
      validate_submit lib s i c (args.flag "--onlybad") c.m_map 0 := by
  unfold cc_validate
  rw [hk]
  simp only
  cases hg : args.get "storage" with
  | error t => rw [hg] at hs; cases hs
  | ok path =>
    rw [hg] at hs
    have hs2 : lib.Storage_ctor path key = .ok s := hs
    simp only
    rw [hs2]
    simp only
    rw [hi]
    simp only
    rw [hc]

/-- Claim C2, as amended: let `cc_validate` have set up its key, Storage, Index and
Checksum, and take a map entry at a position `j` that fits an `int`, with a count `c`
between 1 and 65536 (the windows an `int` offset can address) whose sums
`firstidx .. firstidx + c` lie inside `m_entries` (at most `2^32` rows). Then for every
extracted buffer, of `n` bytes, `cc_validate` detaches for it a task that extracts the
file with id `j` and hashes exactly `c` windows, window `k` starting at byte
`k * 0x8000` with `min(0x8000, n - k * 0x8000)` bytes; the lengths add up to
`min(n, c * 0x8000)`, which is the length of the buffer exactly when
`n <= c * 0x8000`. -/
theorem validator_windows (lib : Lib) (args : ArgumentParser) (key : String)
    (s : Storage) (i : Index) (c : Checksum) (j : Nat) (chk : ChecksumMapEntry)
    (hk : validate_key lib args = .ok key)
    (hs : (args.get "storage").bind (fun q => lib.Storage_ctor q key) = .ok s)
    (hi : (args.get "index").bind (fun q => lib.Index_ctor q none) = .ok i)
    (hc : (args.get "checksum").bind lib.Checksum_ctor = .ok c)
    (hj : c.m_map[j]? = some chk) (hjint : j < 2147483648)
    (hpos : chk.count ≠ 0) (hcnt : chk.count ≤ 65536)
    (hidx : chk.firstidx + chk.count ≤ c.m_entries.length)
    (hlen : c.m_entries.length ≤ 4294967296) :
    ∃ run : ValidatorRun,
      some run ∈ (cc_validate lib args).validate_tasks ∧
      run.j = (j : Int) ∧
      run.passes.length = chk.count ∧
      run.passes = (List.range chk.count).map (fun k =>
        { k := (k : Int), index := chk.firstidx + k, offset := ((k * 32768 : Nat) : Int),
          to_read := min 32768 ((lib.extract_file s i (j : Int)).length - k * 32768),
          left := (lib.extract_file s i (j : Int)).length - (k + 1) * 32768 }) ∧
      (run.passes.map (fun it => it.to_read)).sum =
        min (lib.extract_file s i (j : Int)).length (chk.count * 32768) ∧
      ((run.passes.map (fun it => it.to_read)).sum = (lib.extract_file s i (j : Int)).length ↔
        (lib.extract_file s i (j : Int)).length ≤ chk.count * 32768) := by
  have hmem := validate_submit_mem lib s i c (args.flag "--onlybad") c.m_map 0 j chk hj hpos
    (by omega)
  have h0 : wrapInt32 ((0 : Nat) : Int) = 0 := by decide
  rw [h0, Nat.zero_add, ← cc_validate_runs_submit lib args key s i c hk hs hi hc,
    validator_task_eq lib s i c (args.flag "--onlybad") j chk hcnt hpos hidx hlen] at hmem
  have hsum : (((List.range chk.count).map
      (pass_at chk.firstidx (lib.extract_file s i (j : Int)).length)).map
      (fun it => it.to_read)).sum =
      min (lib.extract_file s i (j : Int)).length (chk.count * 32768) := by
    have := to_read_sum (lib.extract_file s i (j : Int)).length chk.count 0
    rw [List.range_eq_range', List.map_map]
    simpa [Function.comp_def, pass_at] using this
  refine ⟨_, hmem, rfl, by simp, ?_, hsum, ?_⟩
  · apply List.map_congr_left
    intro k hk
    rw [List.mem_range] at hk
    have h1 : wrapInt32 (k : Int) = (k : Int) := wrapInt32_small k (by omega)
    have h2 : wrapInt32 ((k : Int) * 32768) = ((k * 32768 : Nat) : Int) :=
      offset_small k (by omega)
    have h3 : (chk.firstidx + k) % 4294967296 = chk.firstidx + k :=
      Nat.mod_eq_of_lt (by omega)
    simp only [pass_at, h1, h2, h3]
  · show (((List.range chk.count).map
      (pass_at chk.firstidx (lib.extract_file s i (j : Int)).length)).map
      (fun it => it.to_read)).sum = _ ↔ _
    rw [hsum]
    omega

/-- Witness of claim C2 as amended, on a Checksum with an empty first file and two sums
for the second, every file extracting to 3 bytes: the task of position 1 hashes two
windows, of 3 bytes and of none. -/
theorem validator_windows_witness :
    ∃ run : ValidatorRun,
      some run ∈ (cc_validate (fixed_lib tree_manifest two_sums (fun _ => [1, 2, 3]) [])
        validate_args).validate_tasks ∧
      run.j = 1 ∧
      run.passes.length = 2 ∧
      (run.passes.map (fun it => it.to_read)).sum = 3 := by
  obtain ⟨run, h1, h2, h3, _, h5, _⟩ := validator_windows
    (fixed_lib tree_manifest two_sums (fun _ => [1, 2, 3]) []) validate_args default_key
    { path := "s", key := default_key } { m_indexes := [] } two_sums 1
    { firstidx := 0, count := 2 } rfl rfl rfl rfl rfl (by decide) (by decide) (by decide)
    (by decide) (by decide)
  exact ⟨run, h1, h2, h3, h5⟩

/-- Counterexample to claim C2 as stated: for a map entry with count 1 and an extracted
buffer of `0x8000 + 1` bytes, the task `cc_validate` detaches hashes one window of
`0x8000` bytes, so the lengths add up to `0x8000`, not to the length of the buffer. -/
theorem validator_windows_short_of_buffer :
    (List.replicate 32769 (0 : Nat)).length = 32769 ∧
    (cc_validate (fixed_lib tree_manifest one_sum (fun _ => List.replicate 32769 0) [])
      validate_args).validate_tasks.map
        (Option.map (fun run => (run.passes.length, (run.passes.map (fun it => it.to_read)).sum)))
      = [some (1, 32768)] ∧
    validate_iterations 0 1 (1 + 1) 0 32769 =
      some [{ k := 0, index := 0, offset := 0, to_read := 32768, left := 1 }] := by
  refine ⟨List.length_replicate _ _, ?_, by decide⟩
  rw [cc_validate_runs_submit (fixed_lib tree_manifest one_sum
    (fun _ => List.replicate 32769 0) []) validate_args default_key
    { path := "s", key := default_key } { m_indexes := [] } one_sum rfl rfl rfl rfl]
  have htask := validator_task_eq (fixed_lib tree_manifest one_sum
    (fun _ => List.replicate 32769 0) []) { path := "s", key := default_key }
    { m_indexes := [] } one_sum (validate_args.flag "--onlybad") 0
    { firstidx := 0, count := 1 } (by decide) (by decide) (by decide) (by decide)
  have hsub : validate_submit (fixed_lib tree_manifest one_sum
      (fun _ => List.replicate 32769 0) []) { path := "s", key := default_key }
      { m_indexes := [] } one_sum (validate_args.flag "--onlybad") one_sum.m_map 0 =
      [validator_task (fixed_lib tree_manifest one_sum
        (fun _ => List.replicate 32769 0) []) { path := "s", key := default_key }
        { m_indexes := [] } one_sum (validate_args.flag "--onlybad") ((0 : Nat) : Int)
        { firstidx := 0, count := 1 }] := rfl
  have hn : ((fixed_lib tree_manifest one_sum (fun _ => List.replicate 32769 0) []).extract_file
      { path := "s", key := default_key } { m_indexes := [] } ((0 : Nat) : Int)).length =
      32769 := List.length_replicate _ _
  rw [hsub, htask, hn]
  rfl

/-- Outside the reach of the `int` overflow the lines are the prescribed ones: for a
Checksum whose positions fit an `int`, whose counts are at most 65536 and whose sums lie
inside `m_entries`, every task of the loop of `cc_validate` prints its lines, there is
one task per map entry with a non-zero count, and the lines of all tasks are, in the
order of submission, those of `expected_lines`. -/
theorem validate_submit_lines (lib : Lib) (s : Storage) (i : Index) (c : Checksum)
    (onlybad : Bool) (hlen : c.m_entries.length ≤ 4294967296) :
    ∀ (l : List ChecksumMapEntry) (j0 : Nat), j0 + l.length ≤ 2147483648 →
      (∀ chk ∈ l, chk.count ≤ 65536 ∧ chk.firstidx + chk.count ≤ c.m_entries.length) →
      ∃ outputs : List ValidatorRun,
        validate_submit lib s i c onlybad l (wrapInt32 (j0 : Int)) = outputs.map some ∧
        outputs.length = (l.filter (fun chk => chk.count ≠ 0)).length ∧
        (outputs.map (fun run => run.lines)).flatten =
          (List.enumFrom j0 l).flatMap (fun jc =>
            (List.range jc.2.count).flatMap (expected_line lib s i c onlybad jc.1 jc.2)) := by
  intro l
  induction l with
  | nil => intro j0 _ _; exact ⟨[], rfl, rfl, rfl⟩
  | cons chk rest ih =>
    intro j0 hj h
    simp only [List.length_cons] at hj
    obtain ⟨outs, ho1, ho2, ho3⟩ := ih (j0 + 1) (by omega)
      (fun x hx => h x (List.mem_cons_of_mem _ hx))
    have hj0 : wrapInt32 (j0 : Int) = (j0 : Int) := wrapInt32_small j0 (by omega)
    have hnext : wrapInt32 (wrapInt32 (j0 : Int) + 1) = wrapInt32 ((j0 + 1 : Nat) : Int) :=
      wrapInt32_succ j0
    by_cases hz : chk.count = 0
    · refine ⟨outs, ?_, ?_, ?_⟩
      · simp only [validate_submit, hz, if_true, hnext, ho1]
      · simp [hz, ho2]
      · simp [List.enumFrom, hz, ho3]
    · refine ⟨{ j := (j0 : Int)
                passes := (List.range chk.count).map
                  (pass_at chk.firstidx (lib.extract_file s i (j0 : Int)).length)
                lines := (List.range chk.count).flatMap
                  (expected_line lib s i c onlybad j0 chk) } :: outs, ?_, ?_, ?_⟩
      · simp only [validate_submit, hz, if_false, hnext, ho1, List.map_cons]
        rw [hj0, validator_task_eq lib s i c onlybad j0 chk
          (h chk (List.mem_cons_self _ _)).1 hz (h chk (List.mem_cons_self _ _)).2 hlen]
      · simp [hz, ho2]
      · simp [List.enumFrom, ho3]

theorem zeros_window_sum (n off len : Nat) :
    (((List.replicate n (0 : Nat)).drop off).take len).sum = 0 := by
  rw [List.drop_replicate, List.take_replicate, List.sum_replicate]
  simp

theorem huge_hashblock (data : List Nat) (offset : Int) (length : Nat) :
    huge_lib.hashblock data offset length =
      if offset < 0 then 1 else ((data.drop offset.toNat).take length).sum := rfl

theorem huge_extract (s : Storage) (i : Index) (j : Int) :
    huge_lib.extract_file s i j = huge_buffer := rfl

theorem huge_length : huge_buffer.length = 2147483649 := List.length_replicate _ _

theorem huge_entries_length : huge_checksum.m_entries.length = 65537 :=
  List.length_replicate _ _

theorem huge_window_sum (k : Nat) : window_sum huge_lib huge_buffer k = 0 := by
  have hneg : ¬ (((k * 32768 : Nat) : Int) < 0) := by omega
  unfold window_sum
  rw [huge_hashblock, if_neg hneg]
  exact zeros_window_sum _ _ _

theorem huge_sums (k : Nat) :
    (huge_checksum.m_entries.map (fun e => e.sum)).getD (0 + k) 0 = 0 := by
  have h : huge_checksum.m_entries.map (fun e => e.sum) = List.replicate 65537 0 :=
    List.map_replicate
  rw [h, List.getD_eq_getElem?_getD, List.getElem?_replicate]
  split <;> rfl

/-- Every prescribed line of the depot of `huge_lib` is an OK line. -/
theorem huge_expected_line (s : Storage) (i : Index) (k : Nat) :
    expected_line huge_lib s i huge_checksum false 0 { firstidx := 0, count := 65537 } k =
      [ok_line 0 k] := by
  unfold expected_line
  rw [huge_extract]
  simp only [huge_window_sum k, huge_sums k, ne_eq, not_true_eq_false, if_false,
    Bool.false_eq_true]
  rfl

theorem ok_line_head (j k : Int) : (ok_line j k).data.head? = some 'F' := by
  unfold ok_line
  simp only [String.data_append]
  rfl

theorem huge_not_prescribed (s : Storage) (i : Index) :
    "Bad checksum for file 0: got 1 expected 0" ∉
      expected_lines huge_lib s i huge_checksum false := by
  intro hmem
  unfold expected_lines at hmem
  obtain ⟨jc, hjc, hline⟩ := List.mem_flatMap.mp hmem
  have henum : huge_checksum.m_map.enum = [(0, { firstidx := 0, count := 65537 })] := rfl
  rw [henum, List.mem_singleton] at hjc
  subst hjc
  obtain ⟨k, _, hk⟩ := List.mem_flatMap.mp hline
  rw [huge_expected_line, List.mem_singleton] at hk
  have hhead := congrArg (fun line => line.data.head?) hk
  simp only [ok_line_head] at hhead
  exact absurd hhead (by decide)

/-- The tasks `cc_validate` detaches over the depot of `huge_lib`: the one of its map
entry. -/
theorem huge_tasks :
    (cc_validate huge_lib validate_args).validate_tasks =
      [validator_task huge_lib { path := "s", key := default_key } { m_indexes := [] }
        huge_checksum false 0 { firstidx := 0, count := 65537 }] := by
  rw [cc_validate_runs_submit huge_lib validate_args default_key
    { path := "s", key := default_key } { m_indexes := [] } huge_checksum rfl rfl rfl rfl]
  rfl

/-- The line the loop body prints in a pass whose index lies inside `m_entries`. -/
theorem iteration_line_eq (lib : Lib) (c : Checksum) (onlybad : Bool) (j : Int)
    (buf : List Nat) (it : Iteration) (e : ChecksumEntry)
    (h : c.m_entries[it.index]? = some e) :
    iteration_line lib c onlybad j buf it =
      if e.sum ≠ lib.hashblock buf it.offset it.to_read then
        some (some (bad_line j (lib.hashblock buf it.offset it.to_read) e.sum))
      else if !onlybad then some (some (ok_line j it.k))
      else some none := by
  unfold iteration_line
  rw [h]

theorem huge_entry (u : Nat) (hu : u < 65537) :
    huge_checksum.m_entries[u]? = some { sum := 0 } := by
  have h : huge_checksum.m_entries = List.replicate 65537 { sum := 0 } := rfl
  rw [h, List.getElem?_replicate, if_pos hu]

/-- The line the loop body prints in pass 65536 over the depot of `huge_lib`. -/
theorem huge_line_65536 :
    iteration_line huge_lib huge_checksum false 0 huge_buffer (pass_at 0 2147483649 65536) =
      some (some "Bad checksum for file 0: got 1 expected 0") := by
  have hindex : (pass_at 0 2147483649 65536).index = 65536 := by decide
  have hoffset : (pass_at 0 2147483649 65536).offset = -2147483648 := by decide
  have hentry : huge_checksum.m_entries[(pass_at 0 2147483649 65536).index]? =
      some { sum := 0 } := by
    rw [hindex]; exact huge_entry 65536 (by decide)
  have hneg : ((-2147483648 : Int) < 0) := by decide
  have hne : (({ sum := 0 } : ChecksumEntry).sum ≠ 1) := by decide
  have htext : bad_line 0 1 0 = "Bad checksum for file 0: got 1 expected 0" := by decide
  rw [iteration_line_eq huge_lib huge_checksum false 0 huge_buffer _ _ hentry,
    huge_hashblock, hoffset, if_pos hneg, if_pos hne, htext]

/-- A task whose loop ends and whose reads lie inside `m_entries` runs to its end. -/
theorem validator_task_some (lib : Lib) (s : Storage) (i : Index) (c : Checksum)
    (onlybad : Bool) (j : Int) (chksum : ChecksumMapEntry) (passes : List Iteration)
    (lines : List String)
    (h1 : validate_iterations (chksum.firstidx % 4294967296) (chksum.count % 4294967296)
      (chksum.count % 4294967296 + 1) 0 (lib.extract_file s i j).length = some passes)
    (h2 : task_lines lib c onlybad j (lib.extract_file s i j) passes = some lines) :
    ∃ run : ValidatorRun,
      validator_task lib s i c onlybad j chksum = some run ∧
      run.j = j ∧ run.passes = passes ∧ run.lines = lines := by
  refine ⟨{ j := j, passes := passes, lines := lines }, ?_, rfl, rfl, rfl⟩
  unfold validator_task
  simp only [h1, h2]

theorem huge_indices :
    ∀ it ∈ (List.range 65537).map (pass_at 0 2147483649),
      it.index < huge_checksum.m_entries.length := by
  intro it hit
  obtain ⟨u, hu, rfl⟩ := List.mem_map.mp hit
  rw [List.mem_range] at hu
  have hindex : (pass_at 0 2147483649 u).index = (0 + u) % 4294967296 := rfl
  rw [hindex, huge_entries_length]
  omega

theorem huge_passes (s : Storage) (i : Index) :
    validate_iterations
      (({ firstidx := 0, count := 65537 } : ChecksumMapEntry).firstidx % 4294967296)
      (({ firstidx := 0, count := 65537 } : ChecksumMapEntry).count % 4294967296)
      (({ firstidx := 0, count := 65537 } : ChecksumMapEntry).count % 4294967296 + 1) 0
      (huge_lib.extract_file s i 0).length =
      some ((List.range 65537).map (pass_at 0 2147483649)) := by
  rw [huge_extract, huge_length]
  exact validate_iterations_eq 0 65537 2147483649 (by decide)

/-- The task of the depot of `huge_lib` runs to its end. -/
theorem huge_task :
    ∃ run : ValidatorRun,
      validator_task huge_lib { path := "s", key := default_key } { m_indexes := [] }
        huge_checksum false 0 { firstidx := 0, count := 65537 } = some run ∧
      run.passes = (List.range 65537).map (pass_at 0 2147483649) ∧
      "Bad checksum for file 0: got 1 expected 0" ∈ run.lines := by
  obtain ⟨lines, hl, hmem⟩ := task_lines_some huge_lib huge_checksum false 0 huge_buffer
    ((List.range 65537).map (pass_at 0 2147483649)) huge_indices
  obtain ⟨run, hrun, _, hpasses, hlines⟩ := validator_task_some huge_lib
    { path := "s", key := default_key } { m_indexes := [] } huge_checksum false 0
    { firstidx := 0, count := 65537 } _ lines (huge_passes _ _) hl
  refine ⟨run, hrun, hpasses, ?_⟩
  rw [hlines]
  exact hmem (pass_at 0 2147483649 65536)
    (List.mem_map_of_mem _ (List.mem_range.mpr (by decide))) _ huge_line_65536

theorem huge_passes_length :
    ((List.range 65537).map (pass_at 0 2147483649)).length = 65537 := by
  rw [List.length_map, List.length_range]

theorem huge_pass_65536 :
    ((List.range 65537).map (pass_at 0 2147483649))[65536]? = some
      { k := 65536, index := 65536, offset := -2147483648, to_read := 1, left := 0 } := by
  rw [List.getElem?_map, List.getElem?_range (by decide)]
  decide

/-- Claim C3, evaluated at a failing input: a Checksum with one map entry of count 65537
whose 65537 sums are 0, for a file that extracts to `2^31 + 1` bytes 0. The prescribed
line of window 65536, the last byte of the buffer with block sum 0, is
`File 0 part 65536 OK`, and no prescribed line is a `Bad checksum` line. The task
`cc_validate` detaches runs its 65537 passes, but pass 65536 hands `hashblock` the offset
`-2^31`, a window before the buffer, and with a block sum of 1 there the task prints
`Bad checksum for file 0: got 1 expected 0`. -/
theorem cc_validate_pass_65536_wrong_line :
    expected_line huge_lib { path := "s", key := default_key } { m_indexes := [] }
      huge_checksum false 0 { firstidx := 0, count := 65537 } 65536 =
      ["File 0 part 65536 OK"] ∧
    "Bad checksum for file 0: got 1 expected 0" ∉
      expected_lines huge_lib { path := "s", key := default_key } { m_indexes := [] }
        huge_checksum false ∧
    ∃ run : ValidatorRun,
      (cc_validate huge_lib validate_args).validate_tasks = [some run] ∧
      run.passes.length = 65537 ∧
      run.passes[65536]? = some
        { k := 65536, index := 65536, offset := -2147483648, to_read := 1, left := 0 } ∧
      "Bad checksum for file 0: got 1 expected 0" ∈ run.lines := by
  refine ⟨?_, huge_not_prescribed _ _, ?_⟩
  · rw [huge_expected_line]; decide
  · obtain ⟨run, htask, hpasses, hbad⟩ := huge_task
    refine ⟨run, ?_, ?_, ?_, hbad⟩
    · rw [huge_tasks, htask]
    · rw [hpasses]; exact huge_passes_length
    · rw [hpasses]; exact huge_pass_65536


end Steam2
